import Mathlib

/-!
Verification of the SSQ (双色球) draw scraper `ssq.py`.

The development shallowly embeds the pure core of the script:
* `LotteryDraw.from_api_payload` — normalization of one raw API item;
* `fetch_draws` — envelope extraction and the parse-error rule of a single
  page fetch (the HTTP transport is abstracted: the function takes the
  already-decoded JSON envelope);
* `fetch_all_draws` — the paging/deduplication aggregation loop, driven by
  an abstract page source `pages : Nat → List RawItem` standing for the
  per-page raw record lists a (simulated) fetcher yields.

Machine-level concerns (randomized delays, headers, pandas export) are out
of scope, as in the specification.
-/

/-- One raw API payload item, as a record of the optional string fields the
script reads via `payload.get`. `none` models an absent key. -/
structure RawItem where
  code : Option String := none
  date : Option String := none
  red : Option String := none
  redStr : Option String := none
  blue : Option String := none
  blueStr : Option String := none
  sales : Option String := none
  poolmoney : Option String := none
  content : Option String := none
  detailsLink : Option String := none
  deriving Repr, DecidableEq

/-- Python `a or b` on strings: the empty string is falsy. -/
def orEmpty (a b : String) : String :=
  if a = "" then b else a

/-- Python `s.split(c)` on the character level: split at every occurrence
of `c`; the empty input yields one empty token. -/
def splitOnChar (c : Char) : List Char → List (List Char)
  | [] => [[]]
  | x :: xs =>
    if x = c then [] :: splitOnChar c xs
    else
      match splitOnChar c xs with
      | [] => [[x]]
      | t :: ts => (x :: t) :: ts

/-- Python `s.strip()`: drop whitespace from both ends. -/
def trimChars (l : List Char) : List Char :=
  ((l.dropWhile Char.isWhitespace).reverse.dropWhile Char.isWhitespace).reverse

/-- Python `s.startswith(p)`. -/
def pyStartsWith (s p : String) : Bool :=
  p.data.isPrefixOf s.data

/-- Python `[x.strip() for x in s.split(",") if x.strip()]`: split on commas,
trim each token, drop tokens that are empty after trimming. -/
def splitTrim (s : String) : List String :=
  ((splitOnChar ',' s.data).map (fun t => String.mk (trimChars t))).filter
    (fun x => x ≠ "")

/-- Normalized record of one lottery draw (dataclass `LotteryDraw`). -/
structure LotteryDraw where
  issue : String
  draw_date : String
  red_numbers : List String
  blue_numbers : List String
  sales : String
  pool_money : String
  prize_details : String
  details_link : String
  deriving Repr, DecidableEq

/-- Site origin prefixed onto relative detail links. -/
def siteOrigin : String := "https://www.cwl.gov.cn"

/-- Embedding of `LotteryDraw.from_api_payload`: field-name fallbacks,
comma-split number lists, and detail-link absolutization. -/
def LotteryDraw.from_api_payload (payload : RawItem) : LotteryDraw :=
  let issue := payload.code.getD ""
  let draw_date := payload.date.getD ""
  let red_raw := orEmpty (payload.red.getD "") (payload.redStr.getD "")
  let blue_raw := orEmpty (payload.blue.getD "") (payload.blueStr.getD "")
  let red_numbers := splitTrim red_raw
  let blue_numbers := splitTrim blue_raw
  let sales := payload.sales.getD ""
  let pool_money := payload.poolmoney.getD ""
  let prize_details := payload.content.getD ""
  let rawLink := payload.detailsLink.getD ""
  let details_link :=
    if rawLink ≠ "" ∧ ¬ pyStartsWith rawLink "http" then siteOrigin ++ rawLink
    else rawLink
  { issue, draw_date, red_numbers, blue_numbers, sales, pool_money,
    prize_details, details_link }

/-- Value found under a nested key of a dict candidate: a JSON array of raw
items, or some other JSON value. -/
inductive NestedVal where
  | arr (items : List RawItem)
  | other
  deriving Repr, DecidableEq

/-- Value found under a top-level envelope key: an array of raw items, a
dict (whose keys `list` and `data` may in turn hold values), or some other
JSON value. -/
inductive EnvVal where
  | arr (items : List RawItem)
  | obj (lst : Option NestedVal) (dat : Option NestedVal)
  | other
  deriving Repr, DecidableEq

/-- The decoded JSON envelope of one page response, restricted to the three
top-level keys the script inspects (`result`, `list`, `data`); `none` models
an absent key. -/
structure Envelope where
  result : Option EnvVal := none
  lst : Option EnvVal := none
  data : Option EnvVal := none
  deriving Repr, DecidableEq

/-- One iteration of the candidate loop in `fetch_draws`: a list candidate
matches directly; a dict candidate matches if its `list` key holds a list,
else if its `data` key holds a list; anything else does not match. -/
def candidateRecords : Option EnvVal → Option (List RawItem)
  | some (EnvVal.arr items) => some items
  | some (EnvVal.obj lst dat) =>
    match lst with
    | some (NestedVal.arr items) => some items
    | _ =>
      match dat with
      | some (NestedVal.arr items) => some items
      | _ => none
  | _ => none

/-- Envelope extraction of `fetch_draws`: the candidates `result`, `list`,
`data` are tried in order and the first match wins (matching an empty list
still stops the search, as `break` does in the source). -/
def extractRecords (env : Envelope) : List RawItem :=
  match candidateRecords env.result with
  | some r => r
  | none =>
    match candidateRecords env.lst with
    | some r => r
    | none => (candidateRecords env.data).getD []

/-- Failure of a single page fetch, after transport succeeded: the
parse error carries the full payload for diagnostics. -/
inductive FetchError where
  | parseError (payload : Envelope)
  deriving Repr, DecidableEq

/-- Pure core of `fetch_draws`: locate the record list in the envelope,
raise the parse error when `records` is empty (Python `if not records`),
otherwise normalize every record. -/
def fetch_draws (env : Envelope) : Except FetchError (List LotteryDraw) :=
  let records := extractRecords env
  if records = [] then Except.error (FetchError.parseError env)
  else Except.ok (records.map LotteryDraw.from_api_payload)

/-- A top-level envelope value that is directly a JSON array of records. -/
def topArr : Option EnvVal → Option (List RawItem)
  | some (EnvVal.arr items) => some items
  | _ => none

/-- A record array under the nested key `list` (when `useList` is true) or
`data` (when false) of a top-level value that is a dict. -/
def nestedArr (v : Option EnvVal) (useList : Bool) : Option (List RawItem) :=
  match v with
  | some (EnvVal.obj lst dat) =>
    match (if useList then lst else dat) with
    | some (NestedVal.arr items) => some items
    | _ => none
  | _ => none

/-- Modelled from the spec: the fixed-priority search order for the record
list, written from the specification's words — top-level keys `result`,
`list`, `data` in that order, and for a key bound to a nested object the
nested keys `list` then `data`. Used to compare against `extractRecords`. -/
def specLocate (env : Envelope) : Option (List RawItem) :=
  (topArr env.result).orElse fun _ =>
  (nestedArr env.result true).orElse fun _ =>
  (nestedArr env.result false).orElse fun _ =>
  (topArr env.lst).orElse fun _ =>
  (nestedArr env.lst true).orElse fun _ =>
  (nestedArr env.lst false).orElse fun _ =>
  (topArr env.data).orElse fun _ =>
  (nestedArr env.data true).orElse fun _ =>
  nestedArr env.data false

/-- Mutable state of one aggregation run: the accumulated draws and the set
of issue identifiers already seen (kept as a list; only membership is used). -/
structure AggState where
  all_draws : List LotteryDraw
  seen_issues : List String
  deriving Repr, DecidableEq

/-- Body of the inner loop of `fetch_all_draws`: append a draw and record
its issue only when the issue has not been seen before. -/
def stepDraw (st : AggState) (d : LotteryDraw) : AggState :=
  if d.issue ∈ st.seen_issues then st
  else { all_draws := st.all_draws ++ [d], seen_issues := d.issue :: st.seen_issues }

/-- Inner loop of `fetch_all_draws` over one page of draws. -/
def processPage (st : AggState) (pageDraws : List LotteryDraw) : AggState :=
  pageDraws.foldl stepDraw st

/-- Outer loop of `fetch_all_draws`, with the fetcher abstracted as a page
source `pages : Nat → List RawItem` (`pages n` is the raw item list of page
`n`). `fuel` is the number of page iterations remaining; the loop stops when
a page is empty (before processing it) or when a page is shorter than
`page_size` (after processing it). -/
def fetchLoop (pages : Nat → List RawItem) (page_size : Nat) :
    Nat → Nat → AggState → AggState
  | _, 0, st => st
  | page_no, fuel + 1, st =>
    let page_draws := (pages page_no).map LotteryDraw.from_api_payload
    if page_draws = [] then st
    else
      let st' := processPage st page_draws
      if page_draws.length < page_size then st'
      else fetchLoop pages page_size (page_no + 1) fuel st'

/-- Page numbers actually fetched by the loop, in order: mirrors `fetchLoop`
iteration for iteration (each iteration performs exactly one page fetch). -/
def fetchTrace (pages : Nat → List RawItem) (page_size : Nat) :
    Nat → Nat → List Nat
  | _, 0 => []
  | page_no, fuel + 1 =>
    let p := pages page_no
    if p = [] then [page_no]
    else if p.length < page_size then [page_no]
    else page_no :: fetchTrace pages page_size (page_no + 1) fuel

/-- Failure of the aggregation entry point. -/
inductive AggError where
  | emptyResult
  deriving Repr, DecidableEq

/-- Embedding of `fetch_all_draws`: run the paging loop from page 1 with at
most `max_pages` iterations, then fail with the empty-result error when
nothing was accumulated. -/
def fetch_all_draws (pages : Nat → List RawItem) (max_pages : Nat)
    (page_size : Nat) : Except AggError (List LotteryDraw) :=
  let st := fetchLoop pages page_size 1 max_pages { all_draws := [], seen_issues := [] }
  if st.all_draws = [] then Except.error AggError.emptyResult
  else Except.ok st.all_draws

/-- Pages fetched by a run of `fetch_all_draws`. -/
def pagesFetched (pages : Nat → List RawItem) (page_size max_pages : Nat) :
    List Nat :=
  fetchTrace pages page_size 1 max_pages

/-- Raw items of all pages a run of `fetch_all_draws` fetches, in processing
order (the empty final page, when present, contributes no items). -/
def processedItems (pages : Nat → List RawItem) (page_size max_pages : Nat) :
    List RawItem :=
  (pagesFetched pages page_size max_pages).flatMap pages

/-- Normalized draws of all processed raw items, in processing order. -/
def processedDraws (pages : Nat → List RawItem) (page_size max_pages : Nat) :
    List LotteryDraw :=
  (processedItems pages page_size max_pages).map LotteryDraw.from_api_payload

/-- First-occurrence-wins deduplication of a draw list by issue identifier,
relative to a set of already-seen issues. -/
def dedupFirst : List LotteryDraw → List String → List LotteryDraw
  | [], _ => []
  | d :: ds, seen =>
    if d.issue ∈ seen then dedupFirst ds seen
    else d :: dedupFirst ds (d.issue :: seen)

/-- Seen-issue set after scanning a draw list. -/
def seenAfter : List LotteryDraw → List String → List String
  | [], seen => seen
  | d :: ds, seen =>
    seenAfter ds (if d.issue ∈ seen then seen else d.issue :: seen)

theorem seenAfter_nil (s : List String) : seenAfter [] s = s := rfl

theorem dedupFirst_nil (s : List String) : dedupFirst [] s = [] := rfl

theorem processPage_eq (l : List LotteryDraw) :
    ∀ st : AggState,
      processPage st l =
        { all_draws := st.all_draws ++ dedupFirst l st.seen_issues,
          seen_issues := seenAfter l st.seen_issues } := by
  induction l with
  | nil => intro st; simp [processPage, dedupFirst, seenAfter]
  | cons d ds ih =>
    intro st
    by_cases h : d.issue ∈ st.seen_issues
    · have hstep : stepDraw st d = st := by simp [stepDraw, h]
      calc processPage st (d :: ds) = processPage (stepDraw st d) ds := rfl
        _ = processPage st ds := by rw [hstep]
        _ = _ := by rw [ih st]; simp [dedupFirst, seenAfter, h]
    · have hstep : stepDraw st d =
          { all_draws := st.all_draws ++ [d], seen_issues := d.issue :: st.seen_issues } := by
        simp [stepDraw, h]
      calc processPage st (d :: ds) = processPage (stepDraw st d) ds := rfl
        _ = _ := by rw [hstep, ih]; simp [dedupFirst, seenAfter, h]

theorem seenAfter_append (l₁ l₂ : List LotteryDraw) :
    ∀ s, seenAfter (l₁ ++ l₂) s = seenAfter l₂ (seenAfter l₁ s) := by
  induction l₁ with
  | nil => intro s; rfl
  | cons d ds ih =>
    intro s
    simp only [List.cons_append, seenAfter]
    exact ih _

theorem dedupFirst_append (l₁ l₂ : List LotteryDraw) :
    ∀ s, dedupFirst (l₁ ++ l₂) s =
      dedupFirst l₁ s ++ dedupFirst l₂ (seenAfter l₁ s) := by
  induction l₁ with
  | nil => intro s; rfl
  | cons d ds ih =>
    intro s
    by_cases h : d.issue ∈ s
    · simp only [List.cons_append, dedupFirst, seenAfter, if_pos h]
      exact ih s
    · simp only [List.cons_append, dedupFirst, seenAfter, if_neg h]
      exact congrArg (fun t => d :: t) (ih _)

/-- Draws processed by the loop starting at page `page_no` with `fuel`
iterations left: normalized items of the fetched pages, in order. -/
def traceDraws (pages : Nat → List RawItem) (page_size page_no fuel : Nat) :
    List LotteryDraw :=
  ((fetchTrace pages page_size page_no fuel).flatMap pages).map
    LotteryDraw.from_api_payload

theorem traceDraws_zero (pages : Nat → List RawItem) (ps n : Nat) :
    traceDraws pages ps n 0 = [] := rfl

theorem fetchLoop_eq (pages : Nat → List RawItem) (ps : Nat) :
    ∀ fuel n st, fetchLoop pages ps n fuel st =
      { all_draws := st.all_draws ++ dedupFirst (traceDraws pages ps n fuel) st.seen_issues,
        seen_issues := seenAfter (traceDraws pages ps n fuel) st.seen_issues } := by
  intro fuel
  induction fuel with
  | zero => intro n st; simp [fetchLoop, traceDraws, fetchTrace, dedupFirst, seenAfter]
  | succ fuel ih =>
    intro n st
    by_cases hempty : pages n = []
    · have hdm : (pages n).map LotteryDraw.from_api_payload = [] := by
        simp [hempty]
      simp [fetchLoop, hdm, traceDraws, fetchTrace, hempty, dedupFirst, seenAfter]
    · have hdm : (pages n).map LotteryDraw.from_api_payload ≠ [] := by
        simp [hempty]
      by_cases hshort : ((pages n).map LotteryDraw.from_api_payload).length < ps
      · have hshort' : (pages n).length < ps := by simpa using hshort
        simp only [fetchLoop, if_neg hdm, if_pos hshort]
        rw [processPage_eq]
        simp [traceDraws, fetchTrace, hempty, hshort']
      · have hshort' : ¬ (pages n).length < ps := by simpa using hshort
        simp only [fetchLoop, if_neg hdm, if_neg hshort]
        rw [ih, processPage_eq]
        simp only [traceDraws, fetchTrace, if_neg hempty, if_neg hshort',
          List.flatMap_cons, List.map_append]
        simp [seenAfter_append, dedupFirst_append, List.append_assoc]

/-- Closed form of `fetch_all_draws`: deduplicate the processed draws and
fail exactly when nothing remains. -/
theorem fetch_all_draws_eq (pages : Nat → List RawItem) (mp ps : Nat) :
    fetch_all_draws pages mp ps =
      (if dedupFirst (processedDraws pages ps mp) [] = []
       then Except.error AggError.emptyResult
       else Except.ok (dedupFirst (processedDraws pages ps mp) [])) := by
  unfold fetch_all_draws
  rw [fetchLoop_eq]
  simp [processedDraws, processedItems, pagesFetched, traceDraws]

theorem dedupFirst_sublist (l : List LotteryDraw) :
    ∀ s, (dedupFirst l s).Sublist l := by
  induction l with
  | nil => intro s; simp [dedupFirst]
  | cons d ds ih =>
    intro s
    by_cases h : d.issue ∈ s
    · simp only [dedupFirst, if_pos h]
      exact (ih s).cons d
    · simp only [dedupFirst, if_neg h]
      exact (ih (d.issue :: s)).cons₂ d

theorem mem_of_mem_dedupFirst {d : LotteryDraw} {l : List LotteryDraw}
    {s : List String} (h : d ∈ dedupFirst l s) : d ∈ l :=
  (dedupFirst_sublist l s).mem h

theorem dedupFirst_nodup_aux (l : List LotteryDraw) :
    ∀ s, ((dedupFirst l s).map (fun d => d.issue)).Nodup ∧
      ∀ d ∈ dedupFirst l s, d.issue ∉ s := by
  induction l with
  | nil => intro s; simp [dedupFirst]
  | cons d ds ih =>
    intro s
    by_cases h : d.issue ∈ s
    · simpa only [dedupFirst, if_pos h] using ih s
    · simp only [dedupFirst, if_neg h, List.map_cons, List.nodup_cons]
      refine ⟨⟨?_, (ih (d.issue :: s)).1⟩, ?_⟩
      · intro hmem
        rcases List.mem_map.mp hmem with ⟨x, hx, hxe⟩
        exact ((ih (d.issue :: s)).2 x hx) (hxe ▸ List.mem_cons_self _ _)
      · intro x hx
        rcases List.mem_cons.mp hx with hx | hx
        · exact hx ▸ h
        · intro hxs
          exact ((ih (d.issue :: s)).2 x hx) (List.mem_cons_of_mem _ hxs)

theorem dedupFirst_filter_of_seen {k : String} (l : List LotteryDraw)
    (s : List String) (hk : k ∈ s) :
    (dedupFirst l s).filter (fun d => d.issue == k) = [] := by
  rw [List.filter_eq_nil_iff]
  intro d hd
  have := (dedupFirst_nodup_aux l s).2 d hd
  simp only [beq_iff_eq]
  intro he
  exact this (he ▸ hk)

theorem dedupFirst_filter {k : String} (l : List LotteryDraw) :
    ∀ s, k ∉ s →
      (dedupFirst l s).filter (fun d => d.issue == k) =
        (l.find? (fun d => d.issue == k)).toList := by
  induction l with
  | nil => intro s _; simp [dedupFirst]
  | cons d ds ih =>
    intro s hk
    by_cases h : d.issue ∈ s
    · have hne : (d.issue == k) = false := by
        simp only [beq_eq_false_iff_ne]
        intro he
        exact hk (he ▸ h)
      simp only [dedupFirst, if_pos h, List.find?_cons, hne]
      exact ih s hk
    · by_cases hek : d.issue = k
      · have heq : (d.issue == k) = true := by simp [hek]
        simp only [dedupFirst, if_neg h, List.filter_cons, heq, if_pos trivial,
          List.find?_cons, Option.toList_some]
        rw [dedupFirst_filter_of_seen ds (d.issue :: s) (hek ▸ List.mem_cons_self _ _)]
      · have hne : (d.issue == k) = false := by simp [hek]
        simp only [dedupFirst, if_neg h, List.filter_cons, hne, List.find?_cons]
        simp only [Bool.false_eq_true, if_neg (fun hc : False => hc.elim)]
        have : k ∉ d.issue :: s := by
          intro hc
          rcases List.mem_cons.mp hc with hc | hc
          · exact hek hc.symm
          · exact hk hc
        simpa using ih (d.issue :: s) this

theorem dedupFirst_ne_nil {l : List LotteryDraw} (h : l ≠ []) :
    dedupFirst l [] ≠ [] := by
  cases l with
  | nil => exact absurd rfl h
  | cons d ds =>
    simp [dedupFirst]


theorem fetchTrace_stop (pages : Nat → List RawItem) (ps : Nat) :
    ∀ fuel n j, n ≤ j → j < n + fuel →
      (∀ i, n ≤ i → i < j → pages i ≠ [] ∧ ps ≤ (pages i).length) →
      (pages j = [] ∨ (pages j).length < ps) →
      fetchTrace pages ps n fuel = List.range' n (j + 1 - n) := by
  intro fuel
  induction fuel with
  | zero => intro n j h1 h2 _ _; omega
  | succ fuel ih =>
    intro n j h1 h2 hreach hstop
    rcases Nat.eq_or_lt_of_le h1 with heq | hlt
    · subst heq
      have hone : n + 1 - n = 1 := by omega
      rcases hstop with he | hs
      · simp [fetchTrace, he, hone]
      · by_cases he : pages n = []
        · simp [fetchTrace, he, hone]
        · simp [fetchTrace, he, hs, hone]
    · have hn := hreach n le_rfl hlt
      have hns : ¬ (pages n).length < ps := not_lt.mpr hn.2
      simp only [fetchTrace, if_neg hn.1, if_neg hns]
      rw [ih (n + 1) j (by omega) (by omega)
        (fun i hi hij => hreach i (by omega) hij) hstop]
      have hj : j + 1 - n = (j - n) + 1 := by omega
      have hj' : j + 1 - (n + 1) = j - n := by omega
      rw [hj, hj', List.range'_succ]

theorem fetchTrace_head_mem (pages : Nat → List RawItem) (ps : Nat)
    (fuel n : Nat) (h : 0 < fuel) : n ∈ fetchTrace pages ps n fuel := by
  cases fuel with
  | zero => omega
  | succ fuel =>
    by_cases he : pages n = []
    · simp [fetchTrace, he]
    · by_cases hs : (pages n).length < ps
      · simp [fetchTrace, he, hs]
      · simp [fetchTrace, he, hs]

theorem fetchTrace_mem_next (pages : Nat → List RawItem) (ps : Nat) :
    ∀ fuel n j, n ≤ j → j + 1 < n + fuel →
      (∀ i, n ≤ i → i ≤ j → pages i ≠ [] ∧ ps ≤ (pages i).length) →
      j + 1 ∈ fetchTrace pages ps n fuel := by
  intro fuel
  induction fuel with
  | zero => intro n j h1 h2 _; omega
  | succ fuel ih =>
    intro n j h1 h2 hreach
    have hn := hreach n le_rfl h1
    have hns : ¬ (pages n).length < ps := not_lt.mpr hn.2
    simp only [fetchTrace, if_neg hn.1, if_neg hns]
    rcases Nat.eq_or_lt_of_le h1 with heq | hlt
    · subst heq
      exact List.mem_cons_of_mem _
        (fetchTrace_head_mem pages ps fuel (n + 1) (by omega))
    · exact List.mem_cons_of_mem _
        (ih (n + 1) j (by omega) (by omega)
          (fun i hi hij => hreach i (by omega) hij))

theorem from_api_payload_issue (p : RawItem) :
    (LotteryDraw.from_api_payload p).issue = p.code.getD "" := rfl

theorem from_api_payload_red (p : RawItem) :
    (LotteryDraw.from_api_payload p).red_numbers =
      splitTrim (orEmpty (p.red.getD "") (p.redStr.getD "")) := rfl

theorem from_api_payload_blue (p : RawItem) :
    (LotteryDraw.from_api_payload p).blue_numbers =
      splitTrim (orEmpty (p.blue.getD "") (p.blueStr.getD "")) := rfl

theorem splitTrim_no_empty (s : String) :
    (splitTrim s).filter (fun t => t ≠ "") = splitTrim s := by
  unfold splitTrim
  rw [List.filter_filter]
  simp

/-- C7: number-list normalization splits the raw string on commas, trims
each token and discards empty tokens; on the input "1, 2,3 ,4" it yields
exactly ["1","2","3","4"], and no empty token ever survives (filtering the
result by non-emptiness changes nothing). -/
theorem C7_number_list_normalization :
    (∀ item : RawItem, item.red = some "1, 2,3 ,4" →
      (LotteryDraw.from_api_payload item).red_numbers = ["1", "2", "3", "4"]) ∧
    (∀ item : RawItem, item.blue = some "1, 2,3 ,4" →
      (LotteryDraw.from_api_payload item).blue_numbers = ["1", "2", "3", "4"]) ∧
    (∀ item : RawItem,
      ((LotteryDraw.from_api_payload item).red_numbers.filter (fun t => t ≠ "")) =
        (LotteryDraw.from_api_payload item).red_numbers) := by
  refine ⟨?_, ?_, ?_⟩
  · intro item h
    rw [from_api_payload_red, h]
    have : orEmpty ((some "1, 2,3 ,4").getD "") (item.redStr.getD "") = "1, 2,3 ,4" := by
      simp [orEmpty]
    rw [this]
    decide
  · intro item h
    rw [from_api_payload_blue, h]
    have : orEmpty ((some "1, 2,3 ,4").getD "") (item.blueStr.getD "") = "1, 2,3 ,4" := by
      simp [orEmpty]
    rw [this]
    decide
  · intro item
    rw [from_api_payload_red]
    exact splitTrim_no_empty _

/-- C7 witness: the theorem applied at a concrete payload item carrying the
delimited string of the specification. -/
theorem C7_witness :
    (LotteryDraw.from_api_payload { red := some "1, 2,3 ,4" }).red_numbers =
      ["1", "2", "3", "4"] :=
  C7_number_list_normalization.1 { red := some "1, 2,3 ,4" } rfl

theorem from_api_payload_details_link (p : RawItem) :
    (LotteryDraw.from_api_payload p).details_link =
      (if p.detailsLink.getD "" ≠ "" ∧ ¬ pyStartsWith (p.detailsLink.getD "") "http"
       then siteOrigin ++ p.detailsLink.getD ""
       else p.detailsLink.getD "") := rfl

/-- C8: a non-empty detail link that does not start with "http" is rewritten
by prefixing the site origin; a link starting with "http" is left unchanged;
and the origin prefixed onto "/ygkj/detail/123" is the absolute URL of the
specification. -/
theorem C8_details_link_rewrite :
    (∀ item : RawItem, ∀ link : String, item.detailsLink = some link →
      link ≠ "" → ¬ pyStartsWith link "http" →
      (LotteryDraw.from_api_payload item).details_link = siteOrigin ++ link) ∧
    (∀ item : RawItem, ∀ link : String, item.detailsLink = some link →
      pyStartsWith link "http" →
      (LotteryDraw.from_api_payload item).details_link = link) ∧
    siteOrigin ++ "/ygkj/detail/123" = "https://www.cwl.gov.cn/ygkj/detail/123" := by
  refine ⟨?_, ?_, by decide⟩
  · intro item link hl hne hns
    rw [from_api_payload_details_link, hl]
    simp [hne, hns]
  · intro item link hl hs
    rw [from_api_payload_details_link, hl]
    simp [hs]

/-- C8 witness: the theorem applied at the two concrete links of the
specification (a relative link and an absolute one). -/
theorem C8_witness :
    (LotteryDraw.from_api_payload { detailsLink := some "/ygkj/detail/123" }).details_link =
      "https://www.cwl.gov.cn/ygkj/detail/123" ∧
    (LotteryDraw.from_api_payload { detailsLink := some "http://example.org/x" }).details_link =
      "http://example.org/x" :=
  ⟨(C8_details_link_rewrite.1 { detailsLink := some "/ygkj/detail/123" }
      "/ygkj/detail/123" rfl (by decide) (by decide)).trans
      C8_details_link_rewrite.2.2,
   C8_details_link_rewrite.2.1 { detailsLink := some "http://example.org/x" }
      "http://example.org/x" rfl (by decide)⟩

/-- C10: whenever `fetch_draws` succeeds, the returned page of records is
non-empty (the empty-records case raises the parse error instead), so the
aggregator's empty-page branch is unreachable behind a successful fetch. -/
theorem C10_fetch_draws_ok_nonempty :
    ∀ (env : Envelope) (draws : List LotteryDraw),
      fetch_draws env = Except.ok draws → draws ≠ [] := by
  intro env draws h
  unfold fetch_draws at h
  by_cases he : extractRecords env = []
  · rw [if_pos he] at h
    exact absurd h (by simp)
  · rw [if_neg he] at h
    have : (extractRecords env).map LotteryDraw.from_api_payload = draws := by
      simpa using h
    rw [← this]
    simp [he]

theorem candidateRecords_eq (v : Option EnvVal) :
    candidateRecords v = (topArr v).orElse fun _ =>
      (nestedArr v true).orElse fun _ => nestedArr v false := by
  rcases v with _ | (items | ⟨lst, dat⟩ | _)
  · rfl
  · rfl
  · rcases lst with _ | (li | _) <;> rcases dat with _ | (di | _) <;> rfl
  · rfl

theorem chain_skip (v : Option EnvVal) (rest : Option (List RawItem))
    (h : candidateRecords v = none) :
    ((topArr v).orElse fun _ => (nestedArr v true).orElse fun _ =>
      (nestedArr v false).orElse fun _ => rest) = rest := by
  rcases v with _ | (items | ⟨lst, dat⟩ | _)
  · rfl
  · simp [candidateRecords] at h
  · rcases lst with _ | (li | _) <;> rcases dat with _ | (di | _) <;>
      simp_all [candidateRecords, topArr, nestedArr, Option.orElse]
  · rfl

theorem chain_hit (v : Option EnvVal) (rest : Option (List RawItem))
    (r : List RawItem) (h : candidateRecords v = some r) :
    ((topArr v).orElse fun _ => (nestedArr v true).orElse fun _ =>
      (nestedArr v false).orElse fun _ => rest) = some r := by
  rcases v with _ | (items | ⟨lst, dat⟩ | _)
  · simp [candidateRecords] at h
  · simp only [candidateRecords, Option.some.injEq] at h
    subst h
    rfl
  · rcases lst with _ | (li | _) <;> rcases dat with _ | (di | _) <;>
      simp_all [candidateRecords, topArr, nestedArr, Option.orElse]
  · simp [candidateRecords] at h

theorem specLocate_eq (env : Envelope) :
    specLocate env = (candidateRecords env.result).orElse fun _ =>
      (candidateRecords env.lst).orElse fun _ => candidateRecords env.data := by
  cases hr : candidateRecords env.result with
  | some r =>
    rw [specLocate, chain_hit env.result _ r hr]
    rfl
  | none =>
    rw [specLocate, chain_skip env.result _ hr]
    cases hl : candidateRecords env.lst with
    | some r =>
      rw [chain_hit env.lst _ r hl]
      rfl
    | none =>
      rw [chain_skip env.lst _ hl]
      rw [← candidateRecords_eq]
      rfl

theorem extractRecords_eq_specLocate (env : Envelope) :
    extractRecords env = (specLocate env).getD [] := by
  rw [specLocate_eq]
  unfold extractRecords
  cases hr : candidateRecords env.result with
  | some r => simp [Option.orElse]
  | none =>
    cases hl : candidateRecords env.lst with
    | some r => simp [Option.orElse]
    | none => simp [Option.orElse]

/-- C6: envelope extraction uses the fixed priority order of the spec (the
top-level keys result, list, data in order; under a dict candidate the
nested keys list then data), formalized as agreement with the spec-modelled
ordered search `specLocate`; and an envelope holding the record list under
the nested path data.list (with no earlier match) yields that list
unchanged and in order. -/
theorem C6_envelope_priority :
    (∀ env : Envelope, extractRecords env = (specLocate env).getD []) ∧
    (∀ (items : List RawItem) (dat : Option NestedVal),
      extractRecords
        (Envelope.mk none none (some (EnvVal.obj (some (NestedVal.arr items)) dat))) =
        items) := by
  constructor
  · exact extractRecords_eq_specLocate
  · intro items dat
    rfl

/-- Concrete raw item used in witnesses: a draw with a duplicate twin. -/
def itemA : RawItem :=
  { code := some "2024001", red := some "01,02,03,04,05,06", blue := some "07" }

/-- Concrete raw item sharing the issue code of `itemA` but differing in its
date, as a later-page duplicate. -/
def itemA2 : RawItem := { code := some "2024001", date := some "2024-01-02" }

def itemB : RawItem := { code := some "2024002" }

def itemC : RawItem := { code := some "2024003" }

def itemD : RawItem := { code := some "2024004" }

/-- Envelope carrying one record under the nested data.list path. -/
def okEnv : Envelope :=
  Envelope.mk none none (some (EnvVal.obj (some (NestedVal.arr [itemB])) none))

/-- Envelope whose top-level result key holds an empty record array. -/
def emptyArrEnv : Envelope := Envelope.mk (some (EnvVal.arr [])) none none

/-- C3 counterexample: on an envelope whose top-level result key holds an
(empty) record list, a list is located at an expected location, yet
`fetch_draws` still fails with the parse error — refuting that the parse
error occurs exactly when no list can be located. -/
theorem C3_counterexample :
    specLocate emptyArrEnv = some [] ∧
    fetch_draws emptyArrEnv = Except.error (FetchError.parseError emptyArrEnv) :=
  ⟨rfl, rfl⟩

/-- C3 amended: `fetch_draws` fails with the parse error exactly when the
fixed-priority search locates no list at all or its first located list is
empty; whenever the first located list is non-empty, no parse error is
raised and its normalized records are returned. -/
theorem C3_parse_error_iff :
    ∀ env : Envelope,
      (fetch_draws env = Except.error (FetchError.parseError env) ↔
        (specLocate env = none ∨ specLocate env = some [])) ∧
      (∀ items : List RawItem, specLocate env = some items → items ≠ [] →
        fetch_draws env = Except.ok (items.map LotteryDraw.from_api_payload)) := by
  intro env
  have he := extractRecords_eq_specLocate env
  constructor
  · constructor
    · intro h
      by_cases hex : extractRecords env = []
      · rw [hex] at he
        cases hs : specLocate env with
        | none => exact Or.inl rfl
        | some items =>
          right
          rw [hs] at he
          simp only [Option.getD_some] at he
          rw [← he]
      · exact absurd h (by unfold fetch_draws; rw [if_neg hex]; simp)
    · intro h
      have hex : extractRecords env = [] := by
        rcases h with h | h <;> rw [he, h] <;> rfl
      unfold fetch_draws
      rw [if_pos hex]
  · intro items hs hne
    have hex : extractRecords env = items := by
      rw [he, hs]
      rfl
    unfold fetch_draws
    rw [hex, if_neg hne]

/-- C3 witness: the amended theorem applied at a concrete envelope with a
non-empty located list (success) and at the empty envelope (parse error). -/
theorem C3_witness :
    fetch_draws okEnv = Except.ok ([itemB].map LotteryDraw.from_api_payload) ∧
    fetch_draws (Envelope.mk none none none) =
      Except.error (FetchError.parseError (Envelope.mk none none none)) :=
  ⟨(C3_parse_error_iff okEnv).2 [itemB] (by decide) (by decide),
   (C3_parse_error_iff (Envelope.mk none none none)).1.mpr (Or.inl (by decide))⟩

/-- C10 witness: the theorem applied at a concrete envelope on which
`fetch_draws` succeeds. -/
theorem C10_witness :
    ([itemB].map LotteryDraw.from_api_payload) ≠ [] :=
  C10_fetch_draws_ok_nonempty okEnv ([itemB].map LotteryDraw.from_api_payload) rfl

/-- C1: when the loop reaches a page that is empty, aggregation stops at
that page — the pages fetched are exactly pages 1..j, the processed items
come only from the pages before j (the empty page contributes nothing and
is never scanned), and, provided an earlier page existed, the run still
succeeds (the empty page is end of data, not an error). -/
theorem C1_empty_page_stops (pages : Nat → List RawItem) (ps mp j : Nat)
    (h1 : 1 ≤ j) (h2 : j ≤ mp) (hempty : pages j = [])
    (hreach : ∀ i ∈ List.range' 1 (j - 1), pages i ≠ [] ∧ ps ≤ (pages i).length) :
    pagesFetched pages ps mp = List.range' 1 j ∧
    processedItems pages ps mp = (List.range' 1 (j - 1)).flatMap pages ∧
    (2 ≤ j → ∃ res, fetch_all_draws pages mp ps = Except.ok res) := by
  obtain ⟨m, rfl⟩ : ∃ m, j = m + 1 := ⟨j - 1, by omega⟩
  have hre : ∀ i, 1 ≤ i → i < m + 1 → pages i ≠ [] ∧ ps ≤ (pages i).length := by
    intro i hi hij
    exact hreach i (List.mem_range'_1.mpr ⟨hi, by omega⟩)
  have htrace : pagesFetched pages ps mp = List.range' 1 (m + 1) := by
    have h := fetchTrace_stop pages ps mp 1 (m + 1) h1 (by omega) hre (Or.inl hempty)
    have hj : m + 1 + 1 - 1 = m + 1 := by omega
    rw [hj] at h
    exact h
  have hitems : processedItems pages ps mp = (List.range' 1 m).flatMap pages := by
    rw [processedItems, htrace]
    have hsplit : List.range' 1 (m + 1) = List.range' 1 m ++ [1 + m] := by
      simpa using @List.range'_concat 1 1 m
    rw [hsplit, List.flatMap_append (List.range' 1 m) [1 + m] pages]
    have : pages (1 + m) = [] := by rw [Nat.add_comm]; exact hempty
    simp [this]
  refine ⟨htrace, by simpa using hitems, ?_⟩
  intro h2j
  have hp1 := (hre 1 le_rfl (by omega)).1
  obtain ⟨x, hx⟩ : ∃ x, x ∈ pages 1 := by
    cases hp : pages 1 with
    | nil => exact absurd hp hp1
    | cons a t => exact ⟨a, List.mem_cons_self a t⟩
  have hne : processedItems pages ps mp ≠ [] := by
    intro hc
    have hxm : x ∈ processedItems pages ps mp := by
      rw [hitems]
      exact List.mem_flatMap.mpr ⟨1, List.mem_range'_1.mpr ⟨le_rfl, by omega⟩, hx⟩
    rw [hc] at hxm
    exact absurd hxm (List.not_mem_nil x)
  have hdne : dedupFirst (processedDraws pages ps mp) [] ≠ [] := by
    apply dedupFirst_ne_nil
    rw [processedDraws]
    simpa [List.map_eq_nil_iff] using hne
  rw [fetch_all_draws_eq, if_neg hdne]
  exact ⟨_, rfl⟩

/-- C1 witness: a run whose second page is empty stops there and succeeds
with the records of the first page. -/
def stopPages : Nat → List RawItem := fun n => if n = 1 then [itemA, itemB] else []

theorem C1_witness :
    pagesFetched stopPages 2 60 = List.range' 1 2 ∧
    processedItems stopPages 2 60 = (List.range' 1 (2 - 1)).flatMap stopPages ∧
    (2 ≤ 2 → ∃ res, fetch_all_draws stopPages 60 2 = Except.ok res) :=
  C1_empty_page_stops stopPages 2 60 2 (by decide) (by decide) (by decide) (by decide)

/-- C5: when the loop reaches page j, a short page j (strictly fewer raw
items than the page size) makes it stop after processing that page — pages
1..j are fetched and page j's items are still processed — while a page j
with at least the page size of raw items (duplicates or not: the test reads
the raw item count, before deduplication) makes the loop fetch page j+1. -/
theorem C5_short_page (pages : Nat → List RawItem) (ps mp j : Nat)
    (h1 : 1 ≤ j) (h2 : j ≤ mp)
    (hreach : ∀ i ∈ List.range' 1 (j - 1), pages i ≠ [] ∧ ps ≤ (pages i).length) :
    ((pages j).length < ps →
      pagesFetched pages ps mp = List.range' 1 j ∧
      processedItems pages ps mp = (List.range' 1 j).flatMap pages) ∧
    (pages j ≠ [] → ps ≤ (pages j).length → j < mp →
      j + 1 ∈ pagesFetched pages ps mp) := by
  have hre : ∀ i, 1 ≤ i → i < j → pages i ≠ [] ∧ ps ≤ (pages i).length := by
    intro i hi hij
    exact hreach i (List.mem_range'_1.mpr ⟨hi, by omega⟩)
  constructor
  · intro hshort
    have htrace : pagesFetched pages ps mp = List.range' 1 j := by
      have h := fetchTrace_stop pages ps mp 1 j h1 (by omega) hre (Or.inr hshort)
      have hj : j + 1 - 1 = j := by omega
      rw [hj] at h
      exact h
    exact ⟨htrace, by rw [processedItems, htrace]⟩
  · intro hne hfull hlt
    refine fetchTrace_mem_next pages ps mp 1 j h1 (by omega) ?_
    intro i hi hij
    rcases Nat.lt_or_ge i j with hij2 | hij2
    · exact hre i hi hij2
    · have hieq : i = j := by omega
      subst hieq
      exact ⟨hne, hfull⟩

/-- Pages for the duplicate-across-pages witnesses: page 1 holds items A
and B, page 2 holds a duplicate of A plus item C, page 3 is short. -/
def dupPages : Nat → List RawItem := fun n =>
  if n = 1 then [itemA, itemB]
  else if n = 2 then [itemA2, itemC]
  else if n = 3 then [itemD]
  else []

/-- C5 witness: the theorem applied at page 3 of a concrete run (short page
stops the loop) and at page 1 (a full page, all processed, continues to
page 2). -/
theorem C5_witness :
    ((((dupPages 3).length < 2 →
        pagesFetched dupPages 2 60 = List.range' 1 3 ∧
        processedItems dupPages 2 60 = (List.range' 1 3).flatMap dupPages) ∧
      (dupPages 3 ≠ [] → 2 ≤ (dupPages 3).length → 3 < 60 →
        3 + 1 ∈ pagesFetched dupPages 2 60))) ∧
    ((((dupPages 1).length < 2 →
        pagesFetched dupPages 2 60 = List.range' 1 1 ∧
        processedItems dupPages 2 60 = (List.range' 1 1).flatMap dupPages) ∧
      (dupPages 1 ≠ [] → 2 ≤ (dupPages 1).length → 1 < 60 →
        1 + 1 ∈ pagesFetched dupPages 2 60))) :=
  ⟨C5_short_page dupPages 2 60 3 (by decide) (by decide) (by decide),
   C5_short_page dupPages 2 60 1 (by decide) (by decide) (by decide)⟩

/-- C2: whenever an issue identifier occurs among the processed raw items
of a run, the returned sequence holds exactly one record with that
identifier — the normalization of the first processed item carrying it —
and the whole returned sequence is a subsequence of the processed draws in
page-fetch order (later duplicates discarded). -/
theorem C2_dedup_first_wins (pages : Nat → List RawItem) (mp ps : Nat)
    (k : String) (it : RawItem)
    (hfind : (processedItems pages ps mp).find?
      (fun i => i.code.getD "" == k) = some it) :
    ∃ res, fetch_all_draws pages mp ps = Except.ok res ∧
      res.filter (fun d => d.issue == k) = [LotteryDraw.from_api_payload it] ∧
      res.Sublist (processedDraws pages ps mp) := by
  have hfd : (processedDraws pages ps mp).find? (fun d => d.issue == k) =
      some (LotteryDraw.from_api_payload it) := by
    rw [processedDraws, List.find?_map]
    rw [show ((fun d : LotteryDraw => d.issue == k) ∘ LotteryDraw.from_api_payload) =
      (fun i : RawItem => i.code.getD "" == k) from rfl]
    rw [hfind]
    rfl
  have hfilter : (dedupFirst (processedDraws pages ps mp) []).filter
      (fun d => d.issue == k) = [LotteryDraw.from_api_payload it] := by
    rw [dedupFirst_filter (processedDraws pages ps mp) [] (by simp), hfd]
    rfl
  have hne : dedupFirst (processedDraws pages ps mp) [] ≠ [] := by
    intro hc
    rw [hc] at hfilter
    simp at hfilter
  refine ⟨dedupFirst (processedDraws pages ps mp) [], ?_, hfilter,
    dedupFirst_sublist (processedDraws pages ps mp) []⟩
  rw [fetch_all_draws_eq, if_neg hne]

/-- C2 witness: the theorem applied at a concrete run where items `itemA`
(page 1) and `itemA2` (page 2) share the issue code 2024001. -/
theorem C2_witness :
    ∃ res, fetch_all_draws dupPages 60 2 = Except.ok res ∧
      res.filter (fun d => d.issue == "2024001") =
        [LotteryDraw.from_api_payload itemA] ∧
      res.Sublist (processedDraws dupPages 2 60) :=
  C2_dedup_first_wins dupPages 60 2 "2024001" itemA (by decide)

/-- C9: a normal return of `fetch_all_draws` is always a non-empty
sequence, and a loop that completes with zero accumulated records makes
`fetch_all_draws` fail with the empty-result error. -/
theorem C9_empty_result_error (pages : Nat → List RawItem) (mp ps : Nat) :
    (∀ res : List LotteryDraw,
      fetch_all_draws pages mp ps = Except.ok res → res ≠ []) ∧
    ((fetchLoop pages ps 1 mp (AggState.mk [] [])).all_draws = [] →
      fetch_all_draws pages mp ps = Except.error AggError.emptyResult) := by
  constructor
  · intro res hok
    rw [fetch_all_draws_eq] at hok
    by_cases hd : dedupFirst (processedDraws pages ps mp) [] = []
    · rw [if_pos hd] at hok
      cases hok
    · rw [if_neg hd] at hok
      simp only [Except.ok.injEq] at hok
      rw [← hok]
      exact hd
  · intro hz
    show (if (fetchLoop pages ps 1 mp (AggState.mk [] [])).all_draws = []
      then Except.error AggError.emptyResult
      else Except.ok (fetchLoop pages ps 1 mp (AggState.mk [] [])).all_draws) =
      Except.error AggError.emptyResult
    rw [if_pos hz]

/-- C9 witness: the theorem applied at a run returning four records (its
result is non-empty) and at a run whose every page is empty (the loop
accumulates nothing and the empty-result error is raised). -/
theorem C9_witness :
    dedupFirst (processedDraws dupPages 2 60) [] ≠ [] ∧
    fetch_all_draws (fun _ => []) 60 30 = Except.error AggError.emptyResult :=
  ⟨(C9_empty_result_error dupPages 60 2).1
      (dedupFirst (processedDraws dupPages 2 60) []) rfl,
   (C9_empty_result_error (fun _ => []) 60 30).2 rfl⟩

/-- Raw item with no issue code field at all. -/
def noCodeItem : RawItem := {}

def noCodePages : Nat → List RawItem := fun _ => [noCodeItem]

/-- C4 counterexample: a run over a page whose only item lacks the code
field returns normally, and the returned record's issue identifier is the
empty string — refuting the claimed non-emptiness of issue identifiers. -/
theorem C4_counterexample :
    fetch_all_draws noCodePages 60 30 =
      Except.ok [LotteryDraw.from_api_payload noCodeItem] ∧
    (LotteryDraw.from_api_payload noCodeItem).issue = "" :=
  ⟨rfl, rfl⟩

/-- C4 amended: in every sequence returned by `fetch_all_draws` each issue
identifier occurs in exactly one record (uniqueness holds); non-emptiness
holds only under the extra assumption that every raw item of the page
source carries a non-empty code field — an item without one yields a
record whose issue identifier is empty. -/
theorem C4_issue_unique (pages : Nat → List RawItem) (mp ps : Nat)
    (res : List LotteryDraw)
    (hok : fetch_all_draws pages mp ps = Except.ok res) :
    (∀ d ∈ res, res.countP (fun x => x.issue == d.issue) = 1) ∧
    ((∀ i : Nat, ∀ it ∈ pages i, it.code.getD "" ≠ "") →
      ∀ d ∈ res, d.issue ≠ "") := by
  have hres : res = dedupFirst (processedDraws pages ps mp) [] := by
    rw [fetch_all_draws_eq] at hok
    by_cases hd : dedupFirst (processedDraws pages ps mp) [] = []
    · rw [if_pos hd] at hok
      cases hok
    · rw [if_neg hd] at hok
      simp only [Except.ok.injEq] at hok
      exact hok.symm
  subst hres
  constructor
  · intro d hd
    have hdm : d ∈ processedDraws pages ps mp := mem_of_mem_dedupFirst hd
    have hsome : ((processedDraws pages ps mp).find?
        (fun x => x.issue == d.issue)).isSome :=
      List.find?_isSome.mpr ⟨d, hdm, by simp⟩
    obtain ⟨y, hy⟩ := Option.isSome_iff_exists.mp hsome
    rw [List.countP_eq_length_filter,
      dedupFirst_filter (processedDraws pages ps mp) [] (by simp), hy]
    rfl
  · intro hcode d hd
    have hdm : d ∈ processedDraws pages ps mp := mem_of_mem_dedupFirst hd
    rw [processedDraws] at hdm
    obtain ⟨it, hit, rfl⟩ := List.mem_map.mp hdm
    rw [processedItems] at hit
    obtain ⟨i, _, hmem⟩ := List.mem_flatMap.mp hit
    rw [from_api_payload_issue]
    exact hcode i it hmem

def goodPages : Nat → List RawItem := fun n => if n = 1 then [itemB] else []

/-- C4 witness: the amended theorem applied at a concrete run returning one
record with a non-empty issue code. -/
theorem C4_witness :
    (∀ d ∈ [LotteryDraw.from_api_payload itemB],
      [LotteryDraw.from_api_payload itemB].countP
        (fun x => x.issue == d.issue) = 1) ∧
    ((∀ i : Nat, ∀ it ∈ goodPages i, it.code.getD "" ≠ "") →
      ∀ d ∈ [LotteryDraw.from_api_payload itemB], d.issue ≠ "") :=
  C4_issue_unique goodPages 60 30 [LotteryDraw.from_api_payload itemB] rfl
